import Mathlib

/-!
Shallow embedding of the `libp2p-secio` crate (`src/secio/src/lib.rs`) and,
for the crate modules not present in the source tree (`handshake`, `codec`,
`algo_support`, `error`, `stream_cipher`), models written from the natural
language specification.  External cryptographic primitives (the `ring`,
`secp256k1` and `asn1_der` crates, and `libp2p_core`'s peer-identity
derivation) are out-of-scope collaborators; they appear as fields of a
`RingPrims` record so that the wrapper code of the crate can be stated and
proved for every behaviour of the primitives, and witnesses instantiate the
record concretely.
-/

namespace Secio

/-- Byte strings are lists of naturals (each intended `< 256`; no claim
depends on the bound). -/
abbrev Bytes := List Nat

/-- Public key of the remote or local node, as in `libp2p_core::PublicKey`:
an algorithm-tagged byte vector. -/
inductive PublicKey
  | Rsa (bytes : Bytes)
  | Ed25519 (bytes : Bytes)
  | Secp256k1 (bytes : Bytes)
  deriving DecidableEq, Repr

/-- External primitives used by `lib.rs`.  Handles produced by the parsers
are represented by byte strings; `none` models a returned error from the
primitive (for `generatePkcs8`, a CSPRNG failure). -/
structure RingPrims where
  /-- Embeds `ring::signature::RSAKeyPair::from_pkcs8`: parse, or fail. -/
  rsaFromPkcs8 : Bytes → Option Bytes
  /-- Embeds `ring::signature::Ed25519KeyPair::from_pkcs8`: parse, or fail. -/
  ed25519FromPkcs8 : Bytes → Option Bytes
  /-- Embeds `Ed25519KeyPair::public_key_bytes` on a parsed handle. -/
  ed25519PublicKeyBytes : Bytes → Bytes
  /-- Embeds `Ed25519KeyPair::generate_pkcs8` from a CSPRNG state; `none` is a
  CSPRNG failure. -/
  generatePkcs8 : Nat → Option Bytes
  /-- Embeds `secp256k1::key::SecretKey::from_slice`: validate a raw scalar. -/
  secretFromSlice : Bytes → Option Bytes
  /-- Embeds `secp256k1::key::PublicKey::from_secret_key` followed by
  `serialize_vec(compressed)`; `none` is the library error that the source
  turns into a panic. -/
  pubFromSecret : Bytes → Option Bytes
  /-- Embeds `asn1_der` `FromDerEncoded::with_der_encoded` into a list of DER
  objects (each kept as its content bytes). -/
  withDerEncoded : Bytes → Option (List Bytes)
  /-- Embeds `asn1_der` `FromDerObject::from_der_object` into a byte vector. -/
  fromDerObject : Bytes → Option Bytes
  /-- Embeds `libp2p_core::PublicKey::into_peer_id` (hash of the public-key
  encoding; total). -/
  intoPeerId : PublicKey → Bytes

/-- Inner content of `SecioKeyPair` (`enum SecioKeyPairInner`).  The RSA
variant stores the caller-supplied public bytes and the parsed private
handle; the Ed25519 variant stores the parsed key-pair handle; the
secp256k1 variant stores the validated private scalar. -/
inductive SecioKeyPairInner
  | Rsa (pub : Bytes) (priv : Bytes)
  | Ed25519 (keyPair : Bytes)
  | Secp256k1 (priv : Bytes)
  deriving DecidableEq, Repr

/-- Embeds `pub struct SecioKeyPair { inner: SecioKeyPairInner }`. -/
structure SecioKeyPair where
  inner : SecioKeyPairInner
  deriving DecidableEq, Repr

/-- Errors surfaced by the key-pair constructors (`Box<Error + Send +
Sync>` in the source, always carrying a key-format failure; the string
mirrors the message where the source builds one). -/
inductive KeyError
  | keyFormat (msg : String)
  deriving DecidableEq, Repr

/-- Embeds `SecioKeyPair::rsa_from_pkcs8`: parse the PKCS#8 private key with
`ring`; on success store the caller-supplied public bytes verbatim next to
the private handle. -/
def SecioKeyPair.rsa_from_pkcs8 (prims : RingPrims) (priv pub : Bytes) :
    Except KeyError SecioKeyPair :=
  match prims.rsaFromPkcs8 priv with
  | none => .error (.keyFormat "rsa pkcs8 parse error")
  | some handle => .ok ⟨.Rsa pub handle⟩

/-- Embeds `SecioKeyPair::ed25519_from_pkcs8`: parse the PKCS#8 Ed25519 key with
`ring`. -/
def SecioKeyPair.ed25519_from_pkcs8 (prims : RingPrims) (key : Bytes) :
    Except KeyError SecioKeyPair :=
  match prims.ed25519FromPkcs8 key with
  | none => .error (.keyFormat "ed25519 pkcs8 parse error")
  | some handle => .ok ⟨.Ed25519 handle⟩

/-- Outcome of `SecioKeyPair::ed25519_generated`, with the `.expect` panic
branch represented explicitly. -/
inductive GenOutcome
  | ok (kp : SecioKeyPair)
  | csprngError
  | panicked
  deriving DecidableEq, Repr

/-- Embeds `SecioKeyPair::ed25519_generated`: draw a fresh PKCS#8 document from
the CSPRNG, then re-parse it with `ed25519_from_pkcs8`, panicking
(`.expect`) if the re-parse fails. -/
def SecioKeyPair.ed25519_generated (prims : RingPrims) (rng : Nat) :
    GenOutcome :=
  match prims.generatePkcs8 rng with
  | none => .csprngError
  | some gen =>
    match SecioKeyPair.ed25519_from_pkcs8 prims gen with
    | .ok kp => .ok kp
    | .error _ => .panicked

/-- Embeds `SecioKeyPair::secp256k1_raw_key`: validate a raw 32-byte scalar. -/
def SecioKeyPair.secp256k1_raw_key (prims : RingPrims) (key : Bytes) :
    Except KeyError SecioKeyPair :=
  match prims.secretFromSlice key with
  | none => .error (.keyFormat "secp256k1 secret key error")
  | some priv => .ok ⟨.Secp256k1 priv⟩

/-- Embeds `SecioKeyPair::secp256k1_from_der`: DER-decode, take the second
element (`nth(1)`), convert it to bytes, then defer to
`secp256k1_raw_key`. -/
def SecioKeyPair.secp256k1_from_der (prims : RingPrims) (key : Bytes) :
    Except KeyError SecioKeyPair :=
  match prims.withDerEncoded key with
  | none => .error (.keyFormat "der decode error")
  | some objs =>
    match objs[1]? with
    | none => .error (.keyFormat "Not enough elements in DER")
    | some obj =>
      match prims.fromDerObject obj with
      | none => .error (.keyFormat "der object conversion error")
      | some privBytes => SecioKeyPair.secp256k1_raw_key prims privBytes

/-- Embeds `SecioKeyPair::to_public_key`.  `none` models the `expect` panic in
the secp256k1 branch; the other branches are total. -/
def SecioKeyPair.to_public_key (prims : RingPrims) :
    SecioKeyPair → Option PublicKey
  | ⟨.Rsa pub _⟩ => some (.Rsa pub)
  | ⟨.Ed25519 keyPair⟩ =>
    some (.Ed25519 (prims.ed25519PublicKeyBytes keyPair))
  | ⟨.Secp256k1 priv⟩ =>
    match prims.pubFromSecret priv with
    | none => none
    | some pubkey => some (.Secp256k1 pubkey)

/-- Embeds `SecioKeyPair::to_peer_id`: `self.to_public_key().into_peer_id()`
(`none` again propagates the secp256k1 panic possibility). -/
def SecioKeyPair.to_peer_id (prims : RingPrims) (kp : SecioKeyPair) :
    Option Bytes :=
  (kp.to_public_key prims).map prims.intoPeerId

/-! ### Negotiation (modelled from the spec)

The crate modules `algo_support.rs` and the negotiation half of
`handshake.rs` are not present in the source tree; the definitions below
are modelled from the spec, section 4.2. -/

/-- Three-way comparison on naturals. -/
def cmpNat (a b : Nat) : Ordering :=
  if a < b then .lt else if b < a then .gt else .eq

/-- Lexicographic three-way comparison on lists, given one on elements. -/
def cmpListWith {α : Type} (c : α → α → Ordering) : List α → List α → Ordering
  | [], [] => .eq
  | [], _ :: _ => .lt
  | _ :: _, [] => .gt
  | a :: as, b :: bs =>
    match c a b with
    | .eq => cmpListWith c as bs
    | o => o

/-- Lexicographic comparison of byte strings. -/
def cmpBytes : Bytes → Bytes → Ordering := cmpListWith cmpNat

/-- Lexicographic comparison of lists of byte strings. -/
def cmpBytesList : List Bytes → List Bytes → Ordering := cmpListWith cmpBytes

/-- Modelled from the spec: a handshake `Propose` message — nonce, the
encoding of the proposer's identity public key, and its prioritized
algorithm catalogs (algorithm names kept as byte strings). -/
structure Proposal where
  nonce : Bytes
  public_key : Bytes
  exchanges : List Bytes
  ciphers : List Bytes
  hashes : List Bytes
  deriving DecidableEq, Repr

/-- Modelled from the spec: the fixed deterministic comparison that
designates which proposal is "first" — compare the public-key encodings,
smaller goes first, with the remaining fields as tie-breaks so that the
comparison is reproducible from message contents alone. -/
def cmpProposal (p q : Proposal) : Ordering :=
  ((((cmpBytes p.public_key q.public_key).then
      (cmpBytes p.nonce q.nonce)).then
      (cmpBytesList p.exchanges q.exchanges)).then
      (cmpBytesList p.ciphers q.ciphers)).then
      (cmpBytesList p.hashes q.hashes)

/-- Modelled from the spec: order a pair of proposals into (first,
second) using `cmpProposal`. -/
def orderProposals (p q : Proposal) : Proposal × Proposal :=
  match cmpProposal p q with
  | .gt => (q, p)
  | _ => (p, q)

/-- Modelled from the spec: scan the proposer-ordered list of the side
designated first for the earliest entry also present in the other side's
list. -/
def selectCategory : List Bytes → List Bytes → Option Bytes
  | [], _ => none
  | x :: xs, other => if x ∈ other then some x else selectCategory xs other

/-- The negotiated algorithm selection `{exchange, cipher, hash}`. -/
structure Selection where
  exchange : Bytes
  cipher : Bytes
  hash : Bytes
  deriving DecidableEq, Repr

/-- Modelled from the spec: the error taxonomy of section 7 (the crate's
`error.rs` is not in the source tree).  No variant carries key
material. -/
inductive SecioError
  | NoCommonAlgorithm
  | HandshakeFailure (msg : String)
  | SignatureVerificationFailed
  | MacMismatch
  | FrameTooLarge
  | EphemeralKeyGenerationFailed
  | SecretGenerationFailed
  | SigningFailure
  | IoFailure (msg : String)
  deriving DecidableEq, Repr

/-- Modelled from the spec: compute the Selection from both proposals,
independently per category; any category without a common entry fails
with `NoCommonAlgorithm`. -/
def computeSelection (p q : Proposal) : Except SecioError Selection :=
  let fs := orderProposals p q
  match selectCategory fs.1.exchanges fs.2.exchanges,
        selectCategory fs.1.ciphers fs.2.ciphers,
        selectCategory fs.1.hashes fs.2.hashes with
  | some e, some c, some h => .ok ⟨e, c, h⟩
  | _, _, _ => .error .NoCommonAlgorithm

/-! ### Key stretcher (modelled from the spec)

The crate's key-stretching code is not in the source tree; modelled from
the spec, section 4.4: an HMAC-based expansion of the shared secret,
split by a fixed byte layout into two directional sets
`{cipher_key, iv, mac_key}`. -/

/-- One directional key set `{iv, cipher_key, mac_key}`. -/
structure StretchedKey where
  iv : Bytes
  cipher_key : Bytes
  mac_key : Bytes
  deriving DecidableEq, Repr

/-- Modelled from the spec: fuel-bounded HMAC feedback expansion.  Each
round emits `hmac secret (a ++ seed)` and advances the chaining value to
`hmac secret a`. -/
def stretchRounds (hmac : Bytes → Bytes → Bytes) (secret seed : Bytes) :
    Nat → Bytes → Bytes
  | 0, _ => []
  | n + 1, a =>
    hmac secret (a ++ seed) ++ stretchRounds hmac secret seed n (hmac secret a)

/-- Modelled from the spec: the raw stretched output, truncated to
`need` bytes.  The HMAC of the selected hash is a parameter (hash
primitives are out-of-scope collaborators); the seed binds the transcript
digest into the derivation. -/
def stretchOutput (hmac : Bytes → Bytes → Bytes) (secret seed : Bytes)
    (need : Nat) : Bytes :=
  (stretchRounds hmac secret seed need (hmac secret seed)).take need

/-- Modelled from the spec: carve one `{iv, cipher_key, mac_key}` set out
of a half of the stretched output, by the fixed layout
`iv ++ cipher_key ++ mac_key`. -/
def carveKey (ivSize cipherKeySize macKeySize : Nat) (half : Bytes) :
    StretchedKey :=
  { iv := half.take ivSize
    cipher_key := (half.drop ivSize).take cipherKeySize
    mac_key := ((half.drop ivSize).drop cipherKeySize).take macKeySize }

/-- Modelled from the spec: stretch the shared secret (with the
transcript digest as seed) into the two directional key sets, first half
then second half of the output. -/
def stretchKeys (hmac : Bytes → Bytes → Bytes) (secret seed : Bytes)
    (ivSize cipherKeySize macKeySize : Nat) :
    StretchedKey × StretchedKey :=
  let total := ivSize + cipherKeySize + macKeySize
  let out := stretchOutput hmac secret seed (2 * total)
  (carveKey ivSize cipherKeySize macKeySize (out.take total),
   carveKey ivSize cipherKeySize macKeySize (out.drop total))

/-! ### Frame codec receive path (modelled from the spec)

The crate's `codec/` module is not in the source tree; modelled from the
spec, section 4.6: wire format `length:u32be | ciphertext | mac`; on
receive the length is bounds-checked, the body split, the MAC verified
with the receiver's `mac_key` before any decryption, and only on a match
is the ciphertext decrypted.  The counter-mode cipher is modelled as a
keystream XOR, per section 4.5. -/

/-- Observable events of processing one incoming frame, used to state
that MAC verification precedes decryption. -/
inductive RxEvent
  | lengthChecked
  | macChecked (ok : Bool)
  | decrypted
  deriving DecidableEq, Repr

/-- Receive-direction session state: the receiver's MAC key, the MAC
length of the selected hash, the configured maximum frame length, the
counter-mode keystream with the current position, and the fail-closed
poison flag. -/
structure IncomingState where
  macKey : Bytes
  macLen : Nat
  maxLen : Nat
  keystream : Nat → Nat
  pos : Nat
  failed : Bool

/-- Counter-mode cipher application: XOR the bytes with the keystream
starting at position `pos` (encryption and decryption are the same
operation). -/
def ctrApply (ks : Nat → Nat) (pos : Nat) (data : Bytes) : Bytes :=
  (List.range data.length).zipWith (fun i b => b ^^^ ks (pos + i)) data

/-- Modelled from the spec: process one received frame body (the bytes
after the length prefix) against the receive state, returning the
outcome, the successor state and the event trace.  On any error the
session is poisoned (`failed := true`) and no plaintext is delivered. -/
def processFrame (hmac : Bytes → Bytes → Bytes) (st : IncomingState)
    (body : Bytes) :
    Except SecioError Bytes × IncomingState × List RxEvent :=
  if st.failed then
    (.error (.IoFailure "session already failed"), st, [])
  else if st.maxLen < body.length then
    (.error .FrameTooLarge, { st with failed := true }, [.lengthChecked])
  else if body.length < st.macLen then
    (.error (.HandshakeFailure "frame too short"),
     { st with failed := true }, [.lengthChecked])
  else
    let ciphertext := body.take (body.length - st.macLen)
    let mac := body.drop (body.length - st.macLen)
    let expected := hmac st.macKey ciphertext
    if expected = mac then
      (.ok (ctrApply st.keystream st.pos ciphertext),
       { st with pos := st.pos + ciphertext.length },
       [.lengthChecked, .macChecked true, .decrypted])
    else
      (.error .MacMismatch, { st with failed := true },
       [.lengthChecked, .macChecked false])

/-- Flip bit `k % 8` of byte `i` of a byte string (positions past the
end leave the string unchanged). -/
def flipBit (b : Bytes) (i k : Nat) : Bytes :=
  b.set i ((b.getD i 0) ^^^ (2 ^ (k % 8)))

/-! ### Handshake (modelled from the spec)

The crate's `handshake.rs` is not in the source tree; the state machine
below is modelled from the spec, sections 4.3 and 6, with the remote
peer's messages and all cryptographic primitives supplied as inputs so
the sequencing is deterministic. -/

/-- Primitives and codecs used by the handshake (out-of-scope
collaborators of the spec: key agreement, signing/verification, hashing,
message encoding). -/
structure HsPrims where
  /-- Encoding of a `PublicKey` for the Propose message. -/
  pubEncode : PublicKey → Bytes
  /-- Decoding of an asserted public-key encoding; `none` is malformed. -/
  pubDecode : Bytes → Option PublicKey
  /-- Canonical encoding of a Propose message (for the transcript). -/
  encodeProposal : Proposal → Bytes
  /-- Transcript digest. -/
  digest : Bytes → Bytes
  /-- Generate an ephemeral key pair on the named curve from a CSPRNG
  state: `(private, public)`, or a primitive failure. -/
  genEphemeral : Bytes → Nat → Option (Bytes × Bytes)
  /-- Key agreement on the named curve with own private part and the
  remote public part; `none` covers a malformed or off-curve remote
  key. -/
  agree : Bytes → Bytes → Bytes → Option Bytes
  /-- Sign with the long-term identity key; `none` is an internal
  primitive failure. -/
  sign : SecioKeyPairInner → Bytes → Option Bytes
  /-- Verify a signature against a public key with that key's
  algorithm. -/
  verify : PublicKey → Bytes → Bytes → Bool
  /-- HMAC of the named hash, for the key stretcher. -/
  hmacForHash : Bytes → Bytes → Bytes → Bytes

/-- Local handshake inputs: identity key pair, fresh nonce, prioritized
catalogs, CSPRNG state. -/
structure HsConfig where
  keyPair : SecioKeyPair
  nonce : Bytes
  exchanges : List Bytes
  ciphers : List Bytes
  hashes : List Bytes
  rng : Nat

/-- The remote peer's handshake messages: its Propose (already decoded)
and its Exchange `{ephemeral_public_key, signature}`. -/
structure RemoteMsgs where
  proposal : Proposal
  ephPub : Bytes
  signature : Bytes

/-- Fixed split sizes of the stretched key material (`iv`,
`cipher_key`, `mac_key`). -/
def ivSize : Nat := 16

/-- Cipher-key share of the stretched key material. -/
def cipherKeySize : Nat := 32

/-- MAC-key share of the stretched key material. -/
def macKeySize : Nat := 20

/-- Observable handshake progress events, used to state that failures
happen before key material is generated. -/
inductive HsEvent
  | proposalSent
  | selectionComputed
  | ephemeralGenerated
  | secretDerived
  | keysStretched
  | exchangeSent
  | verified
  deriving DecidableEq, Repr

/-- The established frame codec: the raw stream wrapped with both
directional key sets (`codec::FullCodec`; the module is not in the
source tree, so only the key material it is built from is modelled). -/
structure FullCodec where
  localKeys : StretchedKey
  remoteKeys : StretchedKey
  deriving DecidableEq, Repr

/-- The Proposal this side builds and sends (spec 4.3 step 1). -/
def localProposal (p : HsPrims) (cfg : HsConfig) (lpk : PublicKey) :
    Proposal :=
  ⟨cfg.nonce, p.pubEncode lpk, cfg.exchanges, cfg.ciphers, cfg.hashes⟩

/-- Modelled from the spec: the full handshake sequence of section 4.3,
returning the outcome (an established codec with the verified remote
public key and the local ephemeral public-key bytes, or a tagged
`SecioError`) together with the progress-event trace. -/
def handshakeCore (p : HsPrims) (r : RingPrims) (cfg : HsConfig)
    (remote : RemoteMsgs) :
    Except SecioError (FullCodec × PublicKey × Bytes) × List HsEvent :=
  match cfg.keyPair.to_public_key r with
  | none => (.error (.HandshakeFailure "local key failure"), [])
  | some lpk =>
    let lp := localProposal p cfg lpk
    let ev0 : List HsEvent := [.proposalSent]
    match computeSelection lp remote.proposal with
    | .error e => (.error e, ev0)
    | .ok sel =>
      let ev1 := ev0 ++ [.selectionComputed]
      match p.genEphemeral sel.exchange cfg.rng with
      | none => (.error .EphemeralKeyGenerationFailed, ev1)
      | some (ephPriv, ephPub) =>
        let ev2 := ev1 ++ [.ephemeralGenerated]
        let fs := orderProposals lp remote.proposal
        let transcript :=
          p.digest (p.encodeProposal fs.1 ++ p.encodeProposal fs.2)
        match p.agree sel.exchange ephPriv remote.ephPub with
        | none => (.error (.HandshakeFailure "bad remote ephemeral key"), ev2)
        | some secret =>
          let ev3 := ev2 ++ [.secretDerived]
          let ks :=
            stretchKeys (p.hmacForHash sel.hash) secret transcript
              ivSize cipherKeySize macKeySize
          let localFirst := cmpProposal lp remote.proposal ≠ .gt
          let localKeys := if localFirst then ks.1 else ks.2
          let remoteKeys := if localFirst then ks.2 else ks.1
          let ev4 := ev3 ++ [.keysStretched]
          match p.sign cfg.keyPair.inner (ephPub ++ transcript) with
          | none => (.error .SigningFailure, ev4)
          | some _ =>
            let ev5 := ev4 ++ [.exchangeSent]
            match p.pubDecode remote.proposal.public_key with
            | none =>
              (.error (.HandshakeFailure "bad remote public key"), ev5)
            | some remotePk =>
              if p.verify remotePk (remote.ephPub ++ transcript)
                  remote.signature then
                (.ok (⟨localKeys, remoteKeys⟩, remotePk, ephPub),
                 ev5 ++ [.verified])
              else
                (.error .SignatureVerificationFailed, ev5)

/-! ### The `lib.rs` wrappers -/

/-- Embeds `pub struct SecioMiddleware<S> { inner: codec::FullCodec<S> }`. -/
structure SecioMiddleware where
  inner : FullCodec
  deriving DecidableEq, Repr

/-- Embeds `SecioMiddleware::handshake`: run `handshake::handshake` and wrap the
codec in a `SecioMiddleware`, keeping the remote public key and the
ephemeral public-key bytes (`lib.rs` lines 349-362). -/
def SecioMiddleware.handshake (p : HsPrims) (r : RingPrims)
    (cfg : HsConfig) (remote : RemoteMsgs) :
    Except SecioError (SecioMiddleware × PublicKey × Bytes) :=
  (handshakeCore p r cfg remote).1.map
    (fun x => (⟨x.1⟩, x.2.1, x.2.2))

/-- Embeds `std::io::ErrorKind`, restricted to what `lib.rs` uses. -/
inductive IoErrorKind
  | InvalidData
  | Other
  deriving DecidableEq, Repr

/-- Embeds `std::io::Error`: a kind plus the boxed inner error
(`IoError::new(kind, err)` keeps `err` retrievable via
`get_ref`/`into_inner`). -/
structure IoErrorStruct where
  kind : IoErrorKind
  source : Option SecioError
  deriving DecidableEq, Repr

/-- Embeds `fn map_err(err: SecioError) -> IoError`: wrap the secio error in an
`InvalidData` I/O error, keeping it as the inner error (`lib.rs` lines
327-331). -/
def map_err (err : SecioError) : IoErrorStruct :=
  ⟨.InvalidData, some err⟩

/-- Embeds `pub struct SecioConfig { pub key: SecioKeyPair }`. -/
structure SecioConfig where
  key : SecioKeyPair

/-- Embeds `pub struct SecioOutput` (`lib.rs` lines 276-286): the encrypted
stream, the remote public key and the ephemeral public key. -/
structure SecioOutput where
  stream : SecioMiddleware
  remote_key : PublicKey
  ephemeral_public_key : Bytes
  deriving DecidableEq, Repr

/-- Embeds `ConnectionUpgrade::upgrade` for `SecioConfig` (`lib.rs` lines
304-325): run the handshake with the configured key, package the result
as `SecioOutput`, and turn a `SecioError` into an I/O error with
`map_err`.  The non-key handshake inputs (nonce, catalogs, CSPRNG state,
remote messages) are passed explicitly. -/
def SecioConfig.upgrade (p : HsPrims) (r : RingPrims) (self : SecioConfig)
    (nonce : Bytes) (exchanges ciphers hashes : List Bytes) (rng : Nat)
    (remote : RemoteMsgs) : Except IoErrorStruct SecioOutput :=
  match SecioMiddleware.handshake p r
      ⟨self.key, nonce, exchanges, ciphers, hashes, rng⟩ remote with
  | .ok x => .ok ⟨x.1, x.2.1, x.2.2⟩
  | .error e => .error (map_err e)

/-- A predicate for key pairs obtained from one of the public
constructors (with some input and CSPRNG state). -/
def ConstructorProduced (r : RingPrims) (kp : SecioKeyPair) : Prop :=
  (∃ a b, SecioKeyPair.rsa_from_pkcs8 r a b = .ok kp) ∨
  (∃ a, SecioKeyPair.ed25519_from_pkcs8 r a = .ok kp) ∨
  (∃ x, SecioKeyPair.ed25519_generated r x = .ok kp) ∨
  (∃ a, SecioKeyPair.secp256k1_raw_key r a = .ok kp) ∨
  (∃ a, SecioKeyPair.secp256k1_from_der r a = .ok kp)

/-! ### Concrete fixtures

Small executable instantiations of the primitive records, used to
evaluate the theorems on concrete inputs. -/

/-- A concrete `RingPrims` whose parsers accept exactly non-empty inputs
and whose secp256k1 public-key derivation is total on accepted
secrets. -/
def ringFix : RingPrims where
  rsaFromPkcs8 := fun b => if b = [] then none else some b
  ed25519FromPkcs8 := fun b => if b = [] then none else some b
  ed25519PublicKeyBytes := fun b => 7 :: b
  generatePkcs8 := fun x => if x = 0 then none else some [x]
  secretFromSlice := fun b => if b = [] then none else some b
  pubFromSecret := fun b => if b = [] then none else some (9 :: b)
  withDerEncoded := fun b => if b = [] then none else some [b, b]
  fromDerObject := fun b => if b = [] then none else some b
  intoPeerId := fun pk =>
    match pk with
    | .Rsa b => 0 :: b
    | .Ed25519 b => 1 :: b
    | .Secp256k1 b => 2 :: b

/-- A concrete `HsPrims` with trivially succeeding primitives. -/
def hsFix : HsPrims where
  pubEncode := fun pk =>
    match pk with
    | .Rsa b => 0 :: b
    | .Ed25519 b => 1 :: b
    | .Secp256k1 b => 2 :: b
  pubDecode := fun b => some (.Ed25519 b)
  encodeProposal := fun pr => pr.nonce ++ pr.public_key
  digest := fun b => b.take 4
  genEphemeral := fun _ x => some ([x], [x + 1])
  agree := fun _ a b => some (a ++ b)
  sign := fun _ m => some m
  verify := fun _ _ _ => true
  hmacForHash := fun _ _ m => [(m.sum + m.length) % 256]

/-- A concrete receive-direction state for frame-codec evaluation. -/
def rxFix : IncomingState where
  macKey := [3]
  macLen := 1
  maxLen := 16
  keystream := fun _ => 0
  pos := 0
  failed := false

/-- A concrete MAC for frame-codec evaluation: the identity on the
message (one-byte messages keep `macLen` consistent). -/
def hmacIdent : Bytes → Bytes → Bytes := fun _ m => m

/-- A concrete expansion HMAC for the stretcher fixtures. -/
def hmacSum : Bytes → Bytes → Bytes := fun _ m => [(m.sum + m.length) % 256]

/-! ### Lemmas on the comparison and negotiation layer -/

theorem cmpNat_eq_of {a b : Nat} (h : cmpNat a b = .eq) : a = b := by
  unfold cmpNat at h
  split at h
  · simp at h
  · split at h
    · simp at h
    · omega

theorem cmpNat_swap (a b : Nat) : cmpNat b a = (cmpNat a b).swap := by
  unfold cmpNat
  split_ifs <;> first | rfl | omega

theorem cmpListWith_eq_of {α : Type} {c : α → α → Ordering}
    (hc : ∀ a b, c a b = .eq → a = b) :
    ∀ {xs ys : List α}, cmpListWith c xs ys = .eq → xs = ys
  | [], [], _ => rfl
  | [], _ :: _, h => by simp [cmpListWith] at h
  | _ :: _, [], h => by simp [cmpListWith] at h
  | a :: as, b :: bs, h => by
    unfold cmpListWith at h
    cases hab : c a b with
    | eq =>
      rw [hab] at h
      rw [hc a b hab, cmpListWith_eq_of hc h]
    | lt => rw [hab] at h; simp at h
    | gt => rw [hab] at h; simp at h

theorem cmpListWith_swap {α : Type} {c : α → α → Ordering}
    (hc : ∀ a b, c b a = (c a b).swap) :
    ∀ (xs ys : List α), cmpListWith c ys xs = (cmpListWith c xs ys).swap
  | [], [] => rfl
  | [], _ :: _ => rfl
  | _ :: _, [] => rfl
  | a :: as, b :: bs => by
    unfold cmpListWith
    rw [hc a b]
    cases hab : c a b with
    | eq => exact cmpListWith_swap hc as bs
    | lt => rfl
    | gt => rfl

theorem cmpBytes_eq_of {a b : Bytes} (h : cmpBytes a b = .eq) : a = b :=
  cmpListWith_eq_of (fun _ _ => cmpNat_eq_of) h

theorem cmpBytes_swap (a b : Bytes) : cmpBytes b a = (cmpBytes a b).swap :=
  cmpListWith_swap cmpNat_swap a b

theorem cmpBytesList_eq_of {a b : List Bytes}
    (h : cmpBytesList a b = .eq) : a = b :=
  cmpListWith_eq_of (fun _ _ => cmpBytes_eq_of) h

theorem cmpBytesList_swap (a b : List Bytes) :
    cmpBytesList b a = (cmpBytesList a b).swap :=
  cmpListWith_swap cmpBytes_swap a b

theorem thenEqIff {a b : Ordering} : a.then b = .eq ↔ a = .eq ∧ b = .eq := by
  cases a <;> cases b <;> simp [Ordering.then]

theorem thenSwap (a b : Ordering) : (a.then b).swap = a.swap.then b.swap := by
  cases a <;> cases b <;> rfl

theorem cmpProposal_eq_of {p q : Proposal} (h : cmpProposal p q = .eq) :
    p = q := by
  unfold cmpProposal at h
  simp only [thenEqIff] at h
  obtain ⟨⟨⟨⟨h1, h2⟩, h3⟩, h4⟩, h5⟩ := h
  cases p; cases q
  simp only [Proposal.mk.injEq]
  exact ⟨cmpBytes_eq_of h2, cmpBytes_eq_of h1, cmpBytesList_eq_of h3,
    cmpBytesList_eq_of h4, cmpBytesList_eq_of h5⟩

theorem cmpProposal_swap (p q : Proposal) :
    cmpProposal q p = (cmpProposal p q).swap := by
  unfold cmpProposal
  rw [thenSwap, thenSwap, thenSwap, thenSwap, ← cmpBytes_swap,
    ← cmpBytes_swap, ← cmpBytesList_swap, ← cmpBytesList_swap,
    ← cmpBytesList_swap]

theorem orderProposals_comm (p q : Proposal) :
    orderProposals p q = orderProposals q p := by
  unfold orderProposals
  rw [cmpProposal_swap p q]
  cases h : cmpProposal p q with
  | lt => rfl
  | eq => rw [cmpProposal_eq_of h]; rfl
  | gt => rfl

theorem orderProposals_cases (p q : Proposal) :
    orderProposals p q = (p, q) ∨ orderProposals p q = (q, p) := by
  unfold orderProposals
  cases cmpProposal p q <;> simp

theorem selectCategory_isSome {a b : List Bytes}
    (h : ∃ x, x ∈ a ∧ x ∈ b) : ∃ y, selectCategory a b = some y := by
  induction a with
  | nil => obtain ⟨x, hx, _⟩ := h; cases hx
  | cons y ys ih =>
    by_cases hyb : y ∈ b
    · exact ⟨y, by simp [selectCategory, hyb]⟩
    · obtain ⟨x, hx, hxb⟩ := h
      rcases List.mem_cons.mp hx with rfl | hx2
      · exact absurd hxb hyb
      · obtain ⟨z, hz⟩ := ih ⟨x, hx2, hxb⟩
        exact ⟨z, by simp [selectCategory, hyb, hz]⟩

theorem selectCategory_eq_none {a b : List Bytes}
    (h : ∀ x ∈ a, x ∉ b) : selectCategory a b = none := by
  induction a with
  | nil => rfl
  | cons y ys ih =>
    have hyb : y ∉ b := h y (by simp)
    simp only [selectCategory, if_neg hyb]
    exact ih (fun x hx => h x (by simp [hx]))

theorem computeSelection_comm (p q : Proposal) :
    computeSelection p q = computeSelection q p := by
  unfold computeSelection
  rw [orderProposals_comm]

theorem computeSelection_isOk (p q : Proposal)
    (hex : ∃ x, x ∈ p.exchanges ∧ x ∈ q.exchanges)
    (hci : ∃ x, x ∈ p.ciphers ∧ x ∈ q.ciphers)
    (hha : ∃ x, x ∈ p.hashes ∧ x ∈ q.hashes) :
    ∃ sel, computeSelection p q = .ok sel := by
  unfold computeSelection
  rcases orderProposals_cases p q with h | h <;> rw [h]
  · obtain ⟨e, he⟩ := selectCategory_isSome hex
    obtain ⟨c, hc⟩ := selectCategory_isSome hci
    obtain ⟨hh, hhh⟩ := selectCategory_isSome hha
    exact ⟨⟨e, c, hh⟩, by simp [he, hc, hhh]⟩
  · obtain ⟨x, h1, h2⟩ := hex
    obtain ⟨e, he⟩ := selectCategory_isSome ⟨x, h2, h1⟩
    obtain ⟨x2, h3, h4⟩ := hci
    obtain ⟨c, hc⟩ := selectCategory_isSome ⟨x2, h4, h3⟩
    obtain ⟨x3, h5, h6⟩ := hha
    obtain ⟨hh, hhh⟩ := selectCategory_isSome ⟨x3, h6, h5⟩
    exact ⟨⟨e, c, hh⟩, by simp [he, hc, hhh]⟩

theorem computeSelection_noCommon (p q : Proposal)
    (h : (∀ x ∈ p.exchanges, x ∉ q.exchanges) ∨
         (∀ x ∈ p.ciphers, x ∉ q.ciphers) ∨
         (∀ x ∈ p.hashes, x ∉ q.hashes)) :
    computeSelection p q = .error .NoCommonAlgorithm := by
  unfold computeSelection
  rcases orderProposals_cases p q with ho | ho <;> rw [ho] <;> dsimp only <;>
    rcases h with h | h | h
  · rw [selectCategory_eq_none h]
  · rw [selectCategory_eq_none h]
    all_goals cases selectCategory p.exchanges q.exchanges <;>
      cases selectCategory p.hashes q.hashes <;> rfl
  · rw [selectCategory_eq_none h]
    all_goals cases selectCategory p.exchanges q.exchanges <;>
      cases selectCategory p.ciphers q.ciphers <;> rfl
  · rw [selectCategory_eq_none (fun x hxq hxp => h x hxp hxq)]
  · rw [selectCategory_eq_none (fun x hxq hxp => h x hxp hxq)]
    all_goals cases selectCategory q.exchanges p.exchanges <;>
      cases selectCategory q.hashes p.hashes <;> rfl
  · rw [selectCategory_eq_none (fun x hxq hxp => h x hxp hxq)]
    all_goals cases selectCategory q.exchanges p.exchanges <;>
      cases selectCategory q.ciphers p.ciphers <;> rfl

/-! ### List and xor helper lemmas -/

theorem set_append_left {α : Type} (l1 l2 : List α) (i : Nat) (v : α)
    (h : i < l1.length) : (l1 ++ l2).set i v = l1.set i v ++ l2 := by
  induction l1 generalizing i with
  | nil => simp at h
  | cons a t ih =>
    cases i with
    | zero => rfl
    | succ n =>
      simp only [List.cons_append, List.set, List.append_eq]
      rw [ih n (by simpa using h)]

theorem set_append_right {α : Type} (l1 l2 : List α) (i : Nat) (v : α)
    (h : l1.length ≤ i) :
    (l1 ++ l2).set i v = l1 ++ l2.set (i - l1.length) v := by
  induction l1 generalizing i with
  | nil => simp
  | cons a t ih =>
    cases i with
    | zero => simp at h
    | succ n =>
      simp only [List.cons_append, List.set, List.length_cons,
        List.append_eq]
      rw [ih n (by simpa using h)]
      have hn : n + 1 - (t.length + 1) = n - t.length := by omega
      rw [hn]

theorem getD_append_left {α : Type} (l1 l2 : List α) (i : Nat) (d : α)
    (h : i < l1.length) : (l1 ++ l2).getD i d = l1.getD i d := by
  induction l1 generalizing i with
  | nil => simp at h
  | cons a t ih =>
    cases i with
    | zero => rfl
    | succ n => simpa using ih n (by simpa using h)

theorem getD_append_right {α : Type} (l1 l2 : List α) (i : Nat) (d : α)
    (h : l1.length ≤ i) :
    (l1 ++ l2).getD i d = l2.getD (i - l1.length) d := by
  induction l1 generalizing i with
  | nil => simp
  | cons a t ih =>
    cases i with
    | zero => simp at h
    | succ n =>
      simp only [List.cons_append, List.length_cons]
      have := ih n (by simpa using h)
      simpa using this

theorem getD_set_self {α : Type} (l : List α) (i : Nat) (v d : α)
    (h : i < l.length) : (l.set i v).getD i d = v := by
  induction l generalizing i with
  | nil => simp at h
  | cons a t ih =>
    cases i with
    | zero => rfl
    | succ n => simpa using ih n (by simpa using h)

theorem set_ne_self {α : Type} (l : List α) (i : Nat) (v d : α)
    (h : i < l.length) (hv : v ≠ l.getD i d) : l.set i v ≠ l := by
  intro he
  apply hv
  have h2 := congrArg (fun t => List.getD t i d) he
  simp only at h2
  rwa [getD_set_self l i v d h] at h2

theorem xor_ne_self (x p : Nat) (hp : p ≠ 0) : x ^^^ p ≠ x := by
  intro h
  apply hp
  have h2 : x ^^^ (x ^^^ p) = x ^^^ x := congrArg (x ^^^ ·) h
  rwa [← Nat.xor_assoc, Nat.xor_self, Nat.zero_xor] at h2

theorem two_pow_ne_zero (n : Nat) : (2 : Nat) ^ n ≠ 0 :=
  (Nat.pos_pow_of_pos n (by omega)).ne'

theorem flipBit_length (b : Bytes) (i k : Nat) :
    (flipBit b i k).length = b.length := List.length_set b i _

theorem flipBit_ne (b : Bytes) (i k : Nat) (h : i < b.length) :
    flipBit b i k ≠ b :=
  set_ne_self b i _ 0 h
    (xor_ne_self (b.getD i 0) (2 ^ (k % 8)) (two_pow_ne_zero _))

theorem flipBit_append_left (c m : Bytes) (i k : Nat) (h : i < c.length) :
    flipBit (c ++ m) i k = flipBit c i k ++ m := by
  unfold flipBit
  rw [getD_append_left c m i 0 h, set_append_left c m i _ h]

theorem flipBit_append_right (c m : Bytes) (i k : Nat) (h : c.length ≤ i) :
    flipBit (c ++ m) i k = c ++ flipBit m (i - c.length) k := by
  unfold flipBit
  rw [getD_append_right c m i 0 h, set_append_right c m i _ h]

theorem carve_reconstruct (a b c : Nat) (h : Bytes)
    (hl : h.length = a + b + c) :
    (carveKey a b c h).iv ++
      ((carveKey a b c h).cipher_key ++ (carveKey a b c h).mac_key) = h := by
  simp only [carveKey]
  rw [List.take_of_length_le
      (show ((h.drop a).drop b).length ≤ c by
        simp [List.length_drop]; omega),
    List.take_append_drop b (h.drop a), List.take_append_drop a h]

/-! ### Branch lemmas for the frame codec and the stretcher -/

theorem stretchKeys_fst (hmac : Bytes → Bytes → Bytes)
    (secret seed : Bytes) (a b c : Nat) :
    (stretchKeys hmac secret seed a b c).1 =
      carveKey a b c
        ((stretchOutput hmac secret seed (2 * (a + b + c))).take
          (a + b + c)) := rfl

theorem stretchKeys_snd (hmac : Bytes → Bytes → Bytes)
    (secret seed : Bytes) (a b c : Nat) :
    (stretchKeys hmac secret seed a b c).2 =
      carveKey a b c
        ((stretchOutput hmac secret seed (2 * (a + b + c))).drop
          (a + b + c)) := rfl

theorem processFrame_tooLarge (hmac : Bytes → Bytes → Bytes)
    (st : IncomingState) (body : Bytes) (hfail : st.failed = false)
    (h1 : st.maxLen < body.length) :
    processFrame hmac st body =
      (.error .FrameTooLarge, { st with failed := true },
        [.lengthChecked]) := by
  simp [processFrame, hfail, h1]

theorem processFrame_tooShort (hmac : Bytes → Bytes → Bytes)
    (st : IncomingState) (body : Bytes) (hfail : st.failed = false)
    (h1 : ¬ st.maxLen < body.length) (h2 : body.length < st.macLen) :
    processFrame hmac st body =
      (.error (.HandshakeFailure "frame too short"),
        { st with failed := true }, [.lengthChecked]) := by
  simp [processFrame, hfail, h1, h2]

theorem processFrame_mismatch (hmac : Bytes → Bytes → Bytes)
    (st : IncomingState) (body : Bytes) (hfail : st.failed = false)
    (h1 : ¬ st.maxLen < body.length) (h2 : ¬ body.length < st.macLen)
    (h3 : hmac st.macKey (body.take (body.length - st.macLen)) ≠
      body.drop (body.length - st.macLen)) :
    processFrame hmac st body =
      (.error .MacMismatch, { st with failed := true },
        [.lengthChecked, .macChecked false]) := by
  simp [processFrame, hfail, h1, h2, h3]

theorem processFrame_ok (hmac : Bytes → Bytes → Bytes)
    (st : IncomingState) (body : Bytes) (hfail : st.failed = false)
    (h1 : ¬ st.maxLen < body.length) (h2 : ¬ body.length < st.macLen)
    (h3 : hmac st.macKey (body.take (body.length - st.macLen)) =
      body.drop (body.length - st.macLen)) :
    processFrame hmac st body =
      (.ok (ctrApply st.keystream st.pos
          (body.take (body.length - st.macLen))),
        { st with pos :=
            st.pos + (body.take (body.length - st.macLen)).length },
        [.lengthChecked, .macChecked true, .decrypted]) := by
  simp [processFrame, hfail, h1, h2, h3]

/-! ### Claim theorems -/

/-- C1: for every raw stream environment and local identity key pair,
`SecioMiddleware::handshake` either succeeds and returns exactly the
triple of the established middleware, the verified remote public key and
the ephemeral public-key bytes — the middleware wrapping precisely the
codec established by the inner handshake — or it fails with a tagged
`SecioError`, producing no session. -/
theorem C1_handshake_triple_or_error (p : HsPrims) (r : RingPrims)
    (cfg : HsConfig) (remote : RemoteMsgs) :
    (∃ mid pk eph,
      SecioMiddleware.handshake p r cfg remote = .ok (mid, pk, eph) ∧
      (handshakeCore p r cfg remote).1 = .ok (mid.inner, pk, eph)) ∨
    (∃ e, SecioMiddleware.handshake p r cfg remote = .error e ∧
      (handshakeCore p r cfg remote).1 = .error e) := by
  cases h : (handshakeCore p r cfg remote).1 with
  | ok x =>
    left
    refine ⟨⟨x.1⟩, x.2.1, x.2.2, ?_, rfl⟩
    simp only [SecioMiddleware.handshake, h]
    rfl
  | error e =>
    right
    refine ⟨e, ?_, rfl⟩
    simp only [SecioMiddleware.handshake, h]
    rfl

/-- C3: for proposals whose exchange, cipher and hash lists each
intersect, the Selection computed from either side's perspective is the
same (and the negotiation succeeds). -/
theorem C3_selection_symmetric (p q : Proposal)
    (hex : ∃ x, x ∈ p.exchanges ∧ x ∈ q.exchanges)
    (hci : ∃ x, x ∈ p.ciphers ∧ x ∈ q.ciphers)
    (hha : ∃ x, x ∈ p.hashes ∧ x ∈ q.hashes) :
    ∃ sel, computeSelection p q = .ok sel ∧
      computeSelection q p = .ok sel := by
  obtain ⟨sel, hsel⟩ := computeSelection_isOk p q hex hci hha
  refine ⟨sel, hsel, ?_⟩
  rw [← computeSelection_comm p q]
  exact hsel

/-- Witness for C3: a concrete proposal pair with non-empty per-category
intersections, negotiated identically from both perspectives. -/
theorem C3_selection_symmetric_witness :
    ∃ sel,
      computeSelection ⟨[1], [10], [[1], [2]], [[3]], [[4]]⟩
        ⟨[2], [20], [[2]], [[3], [5]], [[4]]⟩ = .ok sel ∧
      computeSelection ⟨[2], [20], [[2]], [[3], [5]], [[4]]⟩
        ⟨[1], [10], [[1], [2]], [[3]], [[4]]⟩ = .ok sel :=
  C3_selection_symmetric _ _
    ⟨[2], by decide, by decide⟩
    ⟨[3], by decide, by decide⟩
    ⟨[4], by decide, by decide⟩

/-- C4: if any category of the two proposals has an empty intersection,
the handshake fails with `NoCommonAlgorithm` and neither ephemeral key
material, nor a shared secret, nor session keys are ever generated. -/
theorem C4_no_common_fails_before_key_material (p : HsPrims)
    (r : RingPrims) (cfg : HsConfig) (remote : RemoteMsgs)
    (lpk : PublicKey) (hpk : cfg.keyPair.to_public_key r = some lpk)
    (hempty : (∀ x ∈ cfg.exchanges, x ∉ remote.proposal.exchanges) ∨
              (∀ x ∈ cfg.ciphers, x ∉ remote.proposal.ciphers) ∨
              (∀ x ∈ cfg.hashes, x ∉ remote.proposal.hashes)) :
    (handshakeCore p r cfg remote).1 = .error .NoCommonAlgorithm ∧
    HsEvent.ephemeralGenerated ∉ (handshakeCore p r cfg remote).2 ∧
    HsEvent.secretDerived ∉ (handshakeCore p r cfg remote).2 ∧
    HsEvent.keysStretched ∉ (handshakeCore p r cfg remote).2 := by
  have hsel : computeSelection (localProposal p cfg lpk) remote.proposal =
      .error .NoCommonAlgorithm := by
    apply computeSelection_noCommon
    simpa [localProposal] using hempty
  unfold handshakeCore
  rw [hpk]
  dsimp only
  rw [hsel]
  simp

/-- Witness for C4: concrete peers with disjoint exchange catalogs fail
with `NoCommonAlgorithm` and no key-material event is emitted. -/
theorem C4_no_common_fails_before_key_material_witness :
    (handshakeCore hsFix ringFix ⟨⟨.Ed25519 [1]⟩, [2], [[1]], [[3]], [[4]], 1⟩
        ⟨⟨[9], [30], [[2]], [[3]], [[4]]⟩, [5], [6]⟩).1 =
      .error .NoCommonAlgorithm ∧
    HsEvent.ephemeralGenerated ∉
      (handshakeCore hsFix ringFix
        ⟨⟨.Ed25519 [1]⟩, [2], [[1]], [[3]], [[4]], 1⟩
        ⟨⟨[9], [30], [[2]], [[3]], [[4]]⟩, [5], [6]⟩).2 ∧
    HsEvent.secretDerived ∉
      (handshakeCore hsFix ringFix
        ⟨⟨.Ed25519 [1]⟩, [2], [[1]], [[3]], [[4]], 1⟩
        ⟨⟨[9], [30], [[2]], [[3]], [[4]]⟩, [5], [6]⟩).2 ∧
    HsEvent.keysStretched ∉
      (handshakeCore hsFix ringFix
        ⟨⟨.Ed25519 [1]⟩, [2], [[1]], [[3]], [[4]], 1⟩
        ⟨⟨[9], [30], [[2]], [[3]], [[4]]⟩, [5], [6]⟩).2 :=
  C4_no_common_fails_before_key_material hsFix ringFix _ _
    (.Ed25519 [7, 1]) (by decide) (Or.inl (by decide))

/-- C6: each key-pair constructor succeeds exactly when the underlying
parse chain accepts the material, and every failure is a key-format
error returned at construction (never a panic, nothing else affected:
the constructors are pure). -/
theorem C6_constructors_reject_malformed (r : RingPrims)
    (input pub : Bytes) :
    ((∃ kp, SecioKeyPair.rsa_from_pkcs8 r input pub = .ok kp) ↔
      ∃ h, r.rsaFromPkcs8 input = some h) ∧
    ((∃ kp, SecioKeyPair.ed25519_from_pkcs8 r input = .ok kp) ↔
      ∃ h, r.ed25519FromPkcs8 input = some h) ∧
    ((∃ kp, SecioKeyPair.secp256k1_raw_key r input = .ok kp) ↔
      ∃ s, r.secretFromSlice input = some s) ∧
    ((∃ kp, SecioKeyPair.secp256k1_from_der r input = .ok kp) ↔
      ∃ objs obj pb s, r.withDerEncoded input = some objs ∧
        objs[1]? = some obj ∧ r.fromDerObject obj = some pb ∧
        r.secretFromSlice pb = some s) ∧
    (∀ res : Except KeyError SecioKeyPair,
      (res = SecioKeyPair.rsa_from_pkcs8 r input pub ∨
       res = SecioKeyPair.ed25519_from_pkcs8 r input ∨
       res = SecioKeyPair.secp256k1_raw_key r input ∨
       res = SecioKeyPair.secp256k1_from_der r input) →
      (∀ kp, res ≠ .ok kp) → ∃ m, res = .error (.keyFormat m)) := by
  refine ⟨?_, ?_, ?_, ?_, ?_⟩
  · cases h : r.rsaFromPkcs8 input <;>
      simp [SecioKeyPair.rsa_from_pkcs8, h]
  · cases h : r.ed25519FromPkcs8 input <;>
      simp [SecioKeyPair.ed25519_from_pkcs8, h]
  · cases h : r.secretFromSlice input <;>
      simp [SecioKeyPair.secp256k1_raw_key, h]
  · cases h1 : r.withDerEncoded input with
    | none => simp [SecioKeyPair.secp256k1_from_der, h1]
    | some objs =>
      cases h2 : objs[1]? with
      | none => simp [SecioKeyPair.secp256k1_from_der, h1, h2]
      | some obj =>
        cases h3 : r.fromDerObject obj with
        | none => simp [SecioKeyPair.secp256k1_from_der, h1, h2, h3]
        | some pb =>
          cases h4 : r.secretFromSlice pb <;>
            simp [SecioKeyPair.secp256k1_from_der, h1, h2, h3,
              SecioKeyPair.secp256k1_raw_key, h4]
  · intro res _ hnotok
    cases res with
    | ok kp => exact absurd rfl (hnotok kp)
    | error e => cases e with | keyFormat m => exact ⟨m, rfl⟩

/-- Witness for C6: on empty (malformed) input every constructor returns
a key-format error. -/
theorem C6_constructors_reject_malformed_witness :
    (∃ m, SecioKeyPair.rsa_from_pkcs8 ringFix [] [] =
      .error (.keyFormat m)) ∧
    (∃ m, SecioKeyPair.ed25519_from_pkcs8 ringFix [] =
      .error (.keyFormat m)) ∧
    (∃ m, SecioKeyPair.secp256k1_raw_key ringFix [] =
      .error (.keyFormat m)) ∧
    (∃ m, SecioKeyPair.secp256k1_from_der ringFix [] =
      .error (.keyFormat m)) := by
  have h := C6_constructors_reject_malformed ringFix [] []
  refine ⟨h.2.2.2.2 _ (Or.inl rfl) ?_, h.2.2.2.2 _ (Or.inr (Or.inl rfl)) ?_,
    h.2.2.2.2 _ (Or.inr (Or.inr (Or.inl rfl))) ?_,
    h.2.2.2.2 _ (Or.inr (Or.inr (Or.inr rfl))) ?_⟩ <;>
    intro kp hk <;>
    simp [SecioKeyPair.rsa_from_pkcs8, SecioKeyPair.ed25519_from_pkcs8,
      SecioKeyPair.secp256k1_raw_key, SecioKeyPair.secp256k1_from_der,
      ringFix] at hk

/-- C7: protocol failures stay distinct and inspectable through the
`ConnectionUpgrade` interface: `map_err` is injective, keeps the original
`SecioError` as the retrievable inner error of an `InvalidData` I/O
error, and every upgrade failure is exactly the mapped handshake
error. -/
theorem C7_errors_distinct_inspectable (p : HsPrims) (r : RingPrims)
    (cfg : SecioConfig) (nonce : Bytes)
    (exchanges ciphers hashes : List Bytes) (rng : Nat)
    (remote : RemoteMsgs) :
    Function.Injective map_err ∧
    (∀ e, (map_err e).source = some e ∧
      (map_err e).kind = .InvalidData) ∧
    (∀ io, SecioConfig.upgrade p r cfg nonce exchanges ciphers hashes rng
        remote = .error io →
      ∃ e, io = map_err e ∧ io.source = some e ∧
        SecioMiddleware.handshake p r
          ⟨cfg.key, nonce, exchanges, ciphers, hashes, rng⟩ remote =
          .error e) := by
  refine ⟨?_, fun e => ⟨rfl, rfl⟩, ?_⟩
  · intro e1 e2 h
    simpa [map_err, IoErrorStruct.mk.injEq] using h
  · intro io hio
    unfold SecioConfig.upgrade at hio
    cases h : SecioMiddleware.handshake p r
        ⟨cfg.key, nonce, exchanges, ciphers, hashes, rng⟩ remote with
    | ok x => rw [h] at hio; cases hio
    | error e =>
      rw [h] at hio
      injection hio with h2
      exact ⟨e, h2.symm, by rw [← h2]; rfl, rfl⟩

/-- Witness for C7: a concrete failing upgrade (disjoint exchange
catalogs) surfaces as an `InvalidData` I/O error whose inner error is the
original `NoCommonAlgorithm`. -/
theorem C7_errors_distinct_inspectable_witness :
    ∃ e, (⟨.InvalidData, some .NoCommonAlgorithm⟩ : IoErrorStruct) =
        map_err e ∧
      (⟨.InvalidData, some .NoCommonAlgorithm⟩ : IoErrorStruct).source =
        some e ∧
      SecioMiddleware.handshake hsFix ringFix
        ⟨⟨.Ed25519 [1]⟩, [2], [[1]], [[3]], [[4]], 1⟩
        ⟨⟨[9], [30], [[2]], [[3]], [[4]]⟩, [5], [6]⟩ = .error e :=
  (C7_errors_distinct_inspectable hsFix ringFix ⟨⟨.Ed25519 [1]⟩⟩ [2]
    [[1]] [[3]] [[4]] 1 ⟨⟨[9], [30], [[2]], [[3]], [[4]]⟩, [5], [6]⟩).2.2
    _ (by rfl)

/-- C8: for every key pair produced by a constructor, `to_public_key`
and `to_peer_id` return a value (in particular the secp256k1 panic
branch is unreachable), assuming the secp256k1 library contract that a
validated secret key yields a public key. -/
theorem C8_to_public_key_total (r : RingPrims)
    (hsecp : ∀ k s, r.secretFromSlice k = some s →
      ∃ pb, r.pubFromSecret s = some pb)
    (kp : SecioKeyPair) (hkp : ConstructorProduced r kp) :
    ∃ pk, kp.to_public_key r = some pk ∧
      kp.to_peer_id r = some (r.intoPeerId pk) := by
  have main : ∀ pk', kp.to_public_key r = some pk' →
      kp.to_peer_id r = some (r.intoPeerId pk') := by
    intro pk' h
    simp [SecioKeyPair.to_peer_id, h]
  rcases hkp with ⟨a, b, h⟩ | ⟨a, h⟩ | ⟨x, h⟩ | ⟨a, h⟩ | ⟨a, h⟩
  · unfold SecioKeyPair.rsa_from_pkcs8 at h
    cases hr : r.rsaFromPkcs8 a with
    | none => rw [hr] at h; cases h
    | some handle =>
      rw [hr] at h
      injection h with h2
      subst h2
      exact ⟨.Rsa b, rfl, main _ rfl⟩
  · unfold SecioKeyPair.ed25519_from_pkcs8 at h
    cases he : r.ed25519FromPkcs8 a with
    | none => rw [he] at h; cases h
    | some handle =>
      rw [he] at h
      injection h with h2
      subst h2
      exact ⟨.Ed25519 (r.ed25519PublicKeyBytes handle), rfl, main _ rfl⟩
  · unfold SecioKeyPair.ed25519_generated at h
    cases hg : r.generatePkcs8 x with
    | none => simp only [hg] at h; cases h
    | some d =>
      simp only [hg] at h
      unfold SecioKeyPair.ed25519_from_pkcs8 at h
      cases he : r.ed25519FromPkcs8 d with
      | none => simp only [he] at h; cases h
      | some handle =>
        simp only [he] at h
        injection h with h2
        subst h2
        exact ⟨.Ed25519 (r.ed25519PublicKeyBytes handle), rfl, main _ rfl⟩
  · unfold SecioKeyPair.secp256k1_raw_key at h
    cases hs : r.secretFromSlice a with
    | none => rw [hs] at h; cases h
    | some s =>
      rw [hs] at h
      injection h with h2
      subst h2
      obtain ⟨pb, hpb⟩ := hsecp a s hs
      refine ⟨.Secp256k1 pb, ?_, main _ ?_⟩ <;>
        simp [SecioKeyPair.to_public_key, hpb]
  · unfold SecioKeyPair.secp256k1_from_der at h
    cases h1 : r.withDerEncoded a with
    | none => simp only [h1] at h; cases h
    | some objs =>
      simp only [h1] at h
      cases h2 : objs[1]? with
      | none => simp only [h2] at h; cases h
      | some obj =>
        simp only [h2] at h
        cases h3 : r.fromDerObject obj with
        | none => simp only [h3] at h; cases h
        | some pb2 =>
          simp only [h3] at h
          unfold SecioKeyPair.secp256k1_raw_key at h
          cases hs : r.secretFromSlice pb2 with
          | none => simp only [hs] at h; cases h
          | some s =>
            simp only [hs] at h
            injection h with h4
            subst h4
            obtain ⟨pb, hpb⟩ := hsecp pb2 s hs
            refine ⟨.Secp256k1 pb, ?_, main _ ?_⟩ <;>
              simp [SecioKeyPair.to_public_key, hpb]

/-- Witness for C8: a concrete secp256k1 key pair built by the raw-key
constructor has a total `to_public_key` and `to_peer_id`. -/
theorem C8_to_public_key_total_witness :
    ∃ pk, (⟨.Secp256k1 [8]⟩ : SecioKeyPair).to_public_key ringFix =
        some pk ∧
      (⟨.Secp256k1 [8]⟩ : SecioKeyPair).to_peer_id ringFix =
        some (ringFix.intoPeerId pk) :=
  C8_to_public_key_total ringFix
    (by
      intro k s h
      by_cases hk : k = []
      · simp [ringFix, hk] at h
      · simp [ringFix, hk] at h
        subst h
        simp [ringFix, hk])
    ⟨.Secp256k1 [8]⟩
    (Or.inr (Or.inr (Or.inr (Or.inl ⟨[8], by rfl⟩))))

/-- C9: the Ed25519 generator fails only when the CSPRNG fails; under
the `ring` contract that a generated PKCS#8 document re-parses, the
`.expect` panic branch is unreachable. -/
theorem C9_generated_fails_only_on_csprng (r : RingPrims)
    (hring : ∀ x d, r.generatePkcs8 x = some d →
      ∃ h, r.ed25519FromPkcs8 d = some h) (x : Nat) :
    SecioKeyPair.ed25519_generated r x ≠ .panicked ∧
    (SecioKeyPair.ed25519_generated r x = .csprngError ↔
      r.generatePkcs8 x = none) := by
  unfold SecioKeyPair.ed25519_generated
  cases hg : r.generatePkcs8 x with
  | none => exact ⟨by simp, by simp⟩
  | some d =>
    obtain ⟨h, hh⟩ := hring x d hg
    simp [SecioKeyPair.ed25519_from_pkcs8, hh]

/-- Witness for C9: with a concrete CSPRNG that succeeds on state 1, the
generator neither panics nor reports a CSPRNG error. -/
theorem C9_generated_fails_only_on_csprng_witness :
    SecioKeyPair.ed25519_generated ringFix 1 ≠ .panicked ∧
    (SecioKeyPair.ed25519_generated ringFix 1 = .csprngError ↔
      ringFix.generatePkcs8 1 = none) :=
  C9_generated_fails_only_on_csprng ringFix
    (by
      intro x d h
      by_cases hx : x = 0
      · simp [ringFix, hx] at h
      · simp [ringFix, hx] at h
        subst h
        simp [ringFix])
    1

/-- C10: `rsa_from_pkcs8` stores the caller-supplied public bytes
verbatim and never checks them against the private key: success depends
only on the private-key parse, and `to_public_key` returns exactly the
supplied bytes. -/
theorem C10_rsa_public_verbatim (r : RingPrims) (priv pub : Bytes) :
    ((∃ kp, SecioKeyPair.rsa_from_pkcs8 r priv pub = .ok kp) ↔
      ∃ h, r.rsaFromPkcs8 priv = some h) ∧
    (∀ kp, SecioKeyPair.rsa_from_pkcs8 r priv pub = .ok kp →
      kp.to_public_key r = some (.Rsa pub)) := by
  constructor
  · cases h : r.rsaFromPkcs8 priv <;>
      simp [SecioKeyPair.rsa_from_pkcs8, h]
  · intro kp h
    unfold SecioKeyPair.rsa_from_pkcs8 at h
    cases hr : r.rsaFromPkcs8 priv with
    | none => rw [hr] at h; cases h
    | some handle =>
      rw [hr] at h
      injection h with h2
      subst h2
      rfl

/-- Witness for C10: an arbitrary public byte vector, unrelated to the
private key, is returned verbatim by `to_public_key`. -/
theorem C10_rsa_public_verbatim_witness :
    (⟨.Rsa [9, 9] [1]⟩ : SecioKeyPair).to_public_key ringFix =
      some (.Rsa [9, 9]) :=
  (C10_rsa_public_verbatim ringFix [1] [9, 9]).2 ⟨.Rsa [9, 9] [1]⟩
    (by rfl)

/-- C2: on the receive path the MAC is verified before any decryption
(decryption only ever occurs after a successful MAC check in the event
trace); a mismatch fails the whole session with `MacMismatch` and
delivers zero plaintext; only on a match is the ciphertext decrypted and
yielded; and flipping any single bit of a transmitted frame's ciphertext
or MAC produces `MacMismatch` with zero plaintext — for ciphertext flips
under the standard MAC assumption that the keyed MAC separates the
tampered ciphertext from the original. -/
theorem C2_mac_verified_before_decrypt (hmac : Bytes → Bytes → Bytes)
    (st : IncomingState) (hfail : st.failed = false) :
    (∀ body, RxEvent.decrypted ∈ (processFrame hmac st body).2.2 →
      (processFrame hmac st body).2.2 =
        [.lengthChecked, .macChecked true, .decrypted]) ∧
    (∀ body, st.macLen ≤ body.length → body.length ≤ st.maxLen →
      hmac st.macKey (body.take (body.length - st.macLen)) ≠
        body.drop (body.length - st.macLen) →
      processFrame hmac st body =
        (.error .MacMismatch, { st with failed := true },
          [.lengthChecked, .macChecked false])) ∧
    (∀ c, (hmac st.macKey c).length = st.macLen →
      c.length + st.macLen ≤ st.maxLen →
      processFrame hmac st (c ++ hmac st.macKey c) =
        (.ok (ctrApply st.keystream st.pos c),
          { st with pos := st.pos + c.length },
          [.lengthChecked, .macChecked true, .decrypted])) ∧
    (∀ c i k, (hmac st.macKey c).length = st.macLen →
      c.length + st.macLen ≤ st.maxLen →
      i < c.length + st.macLen →
      (i < c.length →
        hmac st.macKey (flipBit c i k) ≠ hmac st.macKey c) →
      processFrame hmac st (flipBit (c ++ hmac st.macKey c) i k) =
        (.error .MacMismatch, { st with failed := true },
          [.lengthChecked, .macChecked false])) := by
  refine ⟨?_, ?_, ?_, ?_⟩
  · intro body hd
    by_cases h1 : st.maxLen < body.length
    · rw [processFrame_tooLarge hmac st body hfail h1] at hd
      simp at hd
    · by_cases h2 : body.length < st.macLen
      · rw [processFrame_tooShort hmac st body hfail h1 h2] at hd
        simp at hd
      · by_cases h3 : hmac st.macKey
            (body.take (body.length - st.macLen)) =
            body.drop (body.length - st.macLen)
        · rw [processFrame_ok hmac st body hfail h1 h2 h3]
        · rw [processFrame_mismatch hmac st body hfail h1 h2 h3] at hd
          simp at hd
  · intro body hb1 hb2 hne
    exact processFrame_mismatch hmac st body hfail (by omega) (by omega)
      hne
  · intro c hcl hmax
    have hbl : (c ++ hmac st.macKey c).length = c.length + st.macLen := by
      rw [List.length_append, hcl]
    have hidx : (c ++ hmac st.macKey c).length - st.macLen = c.length := by
      omega
    have htake : (c ++ hmac st.macKey c).take
        ((c ++ hmac st.macKey c).length - st.macLen) = c := by
      rw [hidx, List.take_left]
    have hdrop : (c ++ hmac st.macKey c).drop
        ((c ++ hmac st.macKey c).length - st.macLen) =
        hmac st.macKey c := by
      rw [hidx, List.drop_left]
    have h := processFrame_ok hmac st (c ++ hmac st.macKey c) hfail
      (by omega) (by omega) (by rw [htake, hdrop])
    rw [h, htake]
  · intro c i k hcl hmax hi hinj
    by_cases hic : i < c.length
    · have hflip : flipBit (c ++ hmac st.macKey c) i k =
          flipBit c i k ++ hmac st.macKey c :=
        flipBit_append_left c _ i k hic
      have hc2l : (flipBit c i k).length = c.length := flipBit_length c i k
      have hbl : (flipBit c i k ++ hmac st.macKey c).length =
          c.length + st.macLen := by
        rw [List.length_append, hc2l, hcl]
      have hidx : (flipBit c i k ++ hmac st.macKey c).length - st.macLen =
          (flipBit c i k).length := by omega
      have htake : (flipBit c i k ++ hmac st.macKey c).take
          ((flipBit c i k ++ hmac st.macKey c).length - st.macLen) =
          flipBit c i k := by
        rw [hidx, List.take_left]
      have hdrop : (flipBit c i k ++ hmac st.macKey c).drop
          ((flipBit c i k ++ hmac st.macKey c).length - st.macLen) =
          hmac st.macKey c := by
        rw [hidx, List.drop_left]
      rw [hflip]
      exact processFrame_mismatch hmac st _ hfail (by omega) (by omega)
        (by rw [htake, hdrop]; exact hinj hic)
    · have hci : c.length ≤ i := by omega
      have hflip : flipBit (c ++ hmac st.macKey c) i k =
          c ++ flipBit (hmac st.macKey c) (i - c.length) k :=
        flipBit_append_right c _ i k hci
      have hm2l : (flipBit (hmac st.macKey c) (i - c.length) k).length =
          st.macLen := by
        rw [flipBit_length, hcl]
      have hbl : (c ++ flipBit (hmac st.macKey c) (i - c.length) k).length
          = c.length + st.macLen := by
        rw [List.length_append, hm2l]
      have hidx : (c ++ flipBit (hmac st.macKey c) (i - c.length) k).length
          - st.macLen = c.length := by omega
      have htake : (c ++ flipBit (hmac st.macKey c) (i - c.length) k).take
          ((c ++ flipBit (hmac st.macKey c) (i - c.length) k).length -
            st.macLen) = c := by
        rw [hidx, List.take_left]
      have hdrop : (c ++ flipBit (hmac st.macKey c) (i - c.length) k).drop
          ((c ++ flipBit (hmac st.macKey c) (i - c.length) k).length -
            st.macLen) = flipBit (hmac st.macKey c) (i - c.length) k := by
        rw [hidx, List.drop_left]
      have hne : flipBit (hmac st.macKey c) (i - c.length) k ≠
          hmac st.macKey c :=
        flipBit_ne (hmac st.macKey c) (i - c.length) k (by omega)
      rw [hflip]
      exact processFrame_mismatch hmac st _ hfail (by omega) (by omega)
        (by rw [htake, hdrop]; exact fun he => hne he.symm)

/-- Witness for C2: a concrete one-byte frame under a concrete separating
MAC; flipping bit 0 of the ciphertext byte is rejected with
`MacMismatch` and no plaintext. -/
theorem C2_mac_verified_before_decrypt_witness :
    processFrame hmacIdent rxFix (flipBit ([5] ++ hmacIdent [3] [5]) 0 0) =
      (.error .MacMismatch, { rxFix with failed := true },
        [.lengthChecked, .macChecked false]) :=
  (C2_mac_verified_before_decrypt hmacIdent rxFix rfl).2.2.2 [5] 0 0
    (by decide) (by decide) (by decide) (by intro h1 h2; simp [hmacIdent, flipBit] at h2)

/-- Counterexample for C5: the stretcher performs no check that the two
directional key sets differ — with a degenerate (yet type-correct)
expansion HMAC and a concrete secret, the local and remote key sets are
byte-identical, refuting "never equal to each other". -/
theorem C5_directional_keys_equal_counterexample :
    (stretchKeys (fun _ _ => [0]) [1] [] 1 1 1).1 =
      (stretchKeys (fun _ _ => [0]) [1] [] 1 1 1).2 := by rfl

/-- C5 (amended): the key stretcher is deterministic — byte-identical
output for identical inputs — and the two directional key sets are the
fixed carving of the two halves of the stretched output, equal exactly
when those halves are byte-identical (which the code does not
preclude). -/
theorem C5_stretcher_deterministic (hmac hmac2 : Bytes → Bytes → Bytes)
    (secret secret2 seed seed2 : Bytes) (a b c : Nat)
    (hh : hmac = hmac2) (hs : secret = secret2) (hd : seed = seed2)
    (hlen : (stretchOutput hmac secret seed (2 * (a + b + c))).length =
      2 * (a + b + c)) :
    stretchKeys hmac secret seed a b c =
      stretchKeys hmac2 secret2 seed2 a b c ∧
    ((stretchKeys hmac secret seed a b c).1 =
        (stretchKeys hmac secret seed a b c).2 ↔
      (stretchOutput hmac secret seed (2 * (a + b + c))).take (a + b + c) =
        (stretchOutput hmac secret seed (2 * (a + b + c))).drop
          (a + b + c)) := by
  subst hh; subst hs; subst hd
  refine ⟨rfl, ?_⟩
  have hl1 : ((stretchOutput hmac secret seed (2 * (a + b + c))).take
      (a + b + c)).length = a + b + c := by
    rw [List.length_take]; omega
  have hl2 : ((stretchOutput hmac secret seed (2 * (a + b + c))).drop
      (a + b + c)).length = a + b + c := by
    rw [List.length_drop]; omega
  constructor
  · intro he
    rw [stretchKeys_fst, stretchKeys_snd] at he
    have r1 := carve_reconstruct a b c _ hl1
    have r2 := carve_reconstruct a b c _ hl2
    rw [← r1, ← r2, he]
  · intro he
    rw [stretchKeys_fst, stretchKeys_snd, he]

/-- Witness for C5 (amended): a concrete non-degenerate expansion HMAC
under which the two halves — and hence the two directional key sets —
differ. -/
theorem C5_stretcher_deterministic_witness :
    ((stretchKeys hmacSum [1] [] 1 1 1).1 =
        (stretchKeys hmacSum [1] [] 1 1 1).2 ↔
      (stretchOutput hmacSum [1] [] (2 * (1 + 1 + 1))).take (1 + 1 + 1) =
        (stretchOutput hmacSum [1] [] (2 * (1 + 1 + 1))).drop
          (1 + 1 + 1)) :=
  (C5_stretcher_deterministic hmacSum hmacSum [1] [1] [] [] 1 1 1 rfl rfl
    rfl (by decide)).2

end Secio
